import Mathlib

/-!
# Verification of the Paillier benchmark client

A shallow embedding of `src/phe/src/paillier/client.py` (a Python 2 program)
together with proofs about its length-prefixed framing protocol, its request
construction, and its correctness-tally bookkeeping.

Modelling conventions:
* Python 2 `str` values on the wire are byte strings; we model them as
  `List Nat` (one `Nat` per byte).
* Python's unbounded `int` is `Int` (or `Nat` where the source value is a
  length and hence nonnegative).
* Python floats (the operand values drawn by `random.uniform`) are modelled
  as exact rationals `ℚ`; only equality tests and `+`/`*` on them occur in
  the claims treated here.
* Socket input is modelled as the list of byte chunks successively returned
  by `sock.recv(4096)`; socket output as the byte list passed to
  `sock.sendall`.
* Exceptions are modelled as explicit outcome constructors.
-/

namespace PaillierClient

/-! ## Decimal rendering and parsing of lengths

`str(body_len)` on a nonnegative Python int renders the decimal digits,
most significant first.  `decDigitsRev` produces the digits least
significant first (with explicit fuel so that it is structurally
recursive); `natToDecBytes` reverses them, with the special case `"0"`. -/

/-- ASCII decimal digits of `n`, least significant first, using `fuel`
recursion depth; `fuel = n` is always enough. -/
def decDigitsRev : Nat → Nat → List Nat
  | 0, _ => []
  | fuel + 1, n => if n = 0 then [] else (n % 10 + 48) :: decDigitsRev fuel (n / 10)

/-- The bytes of Python 2 `str(n)` for a nonnegative int `n`:
decimal digits, most significant first, `"0"` for zero. -/
def natToDecBytes (n : Nat) : List Nat :=
  if n = 0 then [48] else (decDigitsRev n n).reverse

/-- Is `b` one of the whitespace bytes Python's `int()` strips? -/
def isPyWhitespace (b : Nat) : Bool :=
  b == 32 || b == 9 || b == 10 || b == 11 || b == 12 || b == 13

/-- Is `b` an ASCII decimal digit? -/
def isDigitByte (b : Nat) : Bool := 48 ≤ b && b ≤ 57

/-- Parse a nonempty all-digit byte string as a natural number
(most significant digit first); `none` otherwise. -/
def digitsToNat (s : List Nat) : Option Nat :=
  if s ≠ [] ∧ s.all isDigitByte then
    some (s.foldl (fun a b => a * 10 + (b - 48)) 0)
  else none

/-- `int()` first strips surrounding whitespace. -/
def pyStripped (s : List Nat) : List Nat :=
  ((s.dropWhile isPyWhitespace).reverse.dropWhile isPyWhitespace).reverse

/-- The sign-and-digits part of Python `int()`. -/
def pyIntCore : List Nat → Option Int
  | [] => none
  | b :: rest =>
    if b = 43 then (digitsToNat rest).map (fun n => (n : Int))
    else if b = 45 then (digitsToNat rest).map (fun n => -(n : Int))
    else (digitsToNat (b :: rest)).map (fun n => (n : Int))

/-- Python `int(s)` on a byte string: optional surrounding whitespace, an
optional single sign, then one or more decimal digits.  Anything else raises
`ValueError`, modelled as `none`. -/
def pyInt (s : List Nat) : Option Int :=
  pyIntCore (pyStripped s)

/-! ## The framed transport -/

/-- `s.split('\r\n', 1)`: `some (head, tail)` splits `s` at the first
occurrence of the two-byte delimiter CR LF (13, 10); `none` when the
delimiter does not occur (so `'\r\n' in s` is `(splitCRLF s).isSome`). -/
def splitCRLF : List Nat → Option (List Nat × List Nat)
  | [] => none
  | [_] => none
  | b :: b2 :: rest =>
    if b = 13 ∧ b2 = 10 then some ([], rest)
    else (splitCRLF (b2 :: rest)).map (fun p => (b :: p.1, p.2))

/-- Outcome of the client's response-reading loop
(`client.py` lines 175–193). -/
inductive ReadOutcome where
  /-- The loop finished and `response.split('\r\n', 1)[1]` was returned. -/
  | ok (payload : List Nat)
  /-- `int(response_size_str)` raised an uncaught `ValueError`. -/
  | valueError
  /-- The loop finished with no CR LF buffered, so the final
  `split('\r\n', 1)[1]` would raise `IndexError` (unreachable from
  `readFrame`). -/
  | indexError
  /-- The modelled byte source ran out while the loop still expected more
  bytes (the real blocking `recv` would wait forever). -/
  | starved
  deriving DecidableEq, Repr

/-- `response.split('\r\n', 1)[1]`, executed after the buffering loop. -/
def finishRead (response : List Nat) : ReadOutcome :=
  match splitCRLF response with
  | some p => .ok p.2
  | none => .indexError

/-- The buffering loop of `client.py` lines 178–191, one step per
`sock.recv` chunk:

    while len(response) < response_size:
        response += sock.recv(4096)
        if '\r\n' in response:
            response_size_str = response.split('\r\n', 1)[0]
            response_size = len(response_size_str) + 2 + int(response_size_str)
        else:
            response_size = len(response) + 1

`chunks` are the byte chunks the successive `recv` calls return. -/
def readLoop : List (List Nat) → List Nat → Int → ReadOutcome
  | [], response, size =>
    if (response.length : Int) < size then .starved else finishRead response
  | c :: rest, response, size =>
    if (response.length : Int) < size then
      match splitCRLF (response ++ c) with
      | some p =>
        match pyInt p.1 with
        | some n => readLoop rest (response ++ c) ((p.1.length : Int) + 2 + n)
        | none => .valueError
      | none => readLoop rest (response ++ c) (((response ++ c).length : Int) + 1)
    else finishRead response

/-- Reading one frame: `response = ''; response_size = 1`, then the
buffering loop, then `response.split('\r\n', 1)[1]`. -/
def readFrame (chunks : List (List Nat)) : ReadOutcome :=
  readLoop chunks [] 1

/-- Writing one frame (`client.py` lines 171–173):
`sock.sendall(str(body_len) + '\r\n' + body)` with `body_len = len(body)`
(in Python 2, `len` of a `str` is its byte count). -/
def writeFrame (body : List Nat) : List Nat :=
  natToDecBytes body.length ++ 13 :: 10 :: body

/-! ## Lemmas about the decimal length header -/

theorem decDigitsRev_digits (fuel : Nat) :
    ∀ (n : Nat), ∀ b ∈ decDigitsRev fuel n, 48 ≤ b ∧ b ≤ 57 := by
  induction fuel with
  | zero => intro n b hb; simp [decDigitsRev] at hb
  | succ f ih =>
    intro n b hb
    by_cases h0 : n = 0
    · simp [decDigitsRev, h0] at hb
    · simp only [decDigitsRev, h0, if_false, List.mem_cons] at hb
      rcases hb with hb | hb
      · have : n % 10 < 10 := Nat.mod_lt _ (by norm_num)
        omega
      · exact ih (n / 10) b hb

theorem decDigitsRev_val (fuel : Nat) :
    ∀ (n : Nat), n < 10 ^ fuel →
      (decDigitsRev fuel n).foldr (fun b acc => acc * 10 + (b - 48)) 0 = n := by
  induction fuel with
  | zero =>
    intro n h
    simp only [pow_zero, Nat.lt_one_iff] at h
    simp [decDigitsRev, h]
  | succ f ih =>
    intro n h
    by_cases h0 : n = 0
    · simp [decDigitsRev, h0]
    · have hdiv : n / 10 < 10 ^ f := by
        rw [Nat.div_lt_iff_lt_mul (by norm_num)]
        calc n < 10 ^ (f + 1) := h
          _ = 10 ^ f * 10 := by ring
      simp only [decDigitsRev, h0, if_false, List.foldr_cons]
      rw [ih (n / 10) hdiv]
      have hm : n % 10 < 10 := Nat.mod_lt _ (by norm_num)
      have hd := Nat.div_add_mod n 10
      omega

theorem natToDecBytes_digits (n : Nat) : ∀ b ∈ natToDecBytes n, 48 ≤ b ∧ b ≤ 57 := by
  intro b hb
  by_cases h0 : n = 0
  · simp [natToDecBytes, h0] at hb
    omega
  · simp only [natToDecBytes, h0, if_false, List.mem_reverse] at hb
    exact decDigitsRev_digits n n b hb

theorem natToDecBytes_ne_nil (n : Nat) : natToDecBytes n ≠ [] := by
  by_cases h0 : n = 0
  · simp [natToDecBytes, h0]
  · obtain ⟨m, rfl⟩ : ∃ m, n = m + 1 := ⟨n - 1, by omega⟩
    simp [natToDecBytes, decDigitsRev]

theorem natToDecBytes_not_cr (n : Nat) : ∀ b ∈ natToDecBytes n, b ≠ 13 := by
  intro b hb
  have := natToDecBytes_digits n b hb
  omega

theorem digitsToNat_natToDecBytes (n : Nat) :
    digitsToNat (natToDecBytes n) = some n := by
  have hall : (natToDecBytes n).all isDigitByte = true := by
    rw [List.all_eq_true]
    intro b hb
    have := natToDecBytes_digits n b hb
    simp only [isDigitByte, Bool.and_eq_true, decide_eq_true_eq]
    omega
  rw [digitsToNat, if_pos ⟨natToDecBytes_ne_nil n, hall⟩]
  by_cases h0 : n = 0
  · simp [natToDecBytes, h0]
  · simp only [natToDecBytes, h0, if_false]
    rw [List.foldl_reverse]
    exact congrArg some (decDigitsRev_val n n (Nat.lt_pow_self (by norm_num) n))

theorem dropWhile_eq_self_of_forall {p : Nat → Bool} {l : List Nat}
    (h : ∀ b ∈ l, p b = false) : l.dropWhile p = l := by
  cases l with
  | nil => rfl
  | cons a t => simp [List.dropWhile_cons, h a (List.mem_cons_self a t)]

theorem pyInt_natToDecBytes (n : Nat) : pyInt (natToDecBytes n) = some (n : Int) := by
  have hws : ∀ b ∈ natToDecBytes n, isPyWhitespace b = false := by
    intro b hb
    have := natToDecBytes_digits n b hb
    simp only [isPyWhitespace, Bool.or_eq_false_iff, beq_eq_false_iff_ne, ne_eq]
    omega
  have hstrip : pyStripped (natToDecBytes n) = natToDecBytes n := by
    rw [pyStripped, dropWhile_eq_self_of_forall hws,
      dropWhile_eq_self_of_forall (by intro b hb; exact hws b (List.mem_reverse.mp hb)),
      List.reverse_reverse]
  obtain ⟨b, rest, hcons⟩ := List.exists_cons_of_ne_nil (natToDecBytes_ne_nil n)
  have hdig := natToDecBytes_digits n b (by rw [hcons]; exact List.mem_cons_self b rest)
  rw [pyInt, hstrip, hcons, pyIntCore]
  rw [if_neg (by omega), if_neg (by omega), ← hcons, digitsToNat_natToDecBytes]
  rfl

/-! ## Lemmas about `splitCRLF` -/

theorem splitCRLF_cons₂ (b b2 : Nat) (rest : List Nat) :
    splitCRLF (b :: b2 :: rest) =
      if b = 13 ∧ b2 = 10 then some ([], rest)
      else (splitCRLF (b2 :: rest)).map (fun p => (b :: p.1, p.2)) := rfl

theorem splitCRLF_eq_none {l : List Nat} (h : ∀ b ∈ l, b ≠ 13) :
    splitCRLF l = none := by
  induction l with
  | nil => rfl
  | cons a t ih =>
    cases t with
    | nil => rfl
    | cons b2 r =>
      rw [splitCRLF_cons₂, if_neg (by
        intro hc
        exact h a (List.mem_cons_self a _) hc.1)]
      rw [ih (fun b hb => h b (List.mem_cons_of_mem a hb))]
      rfl

theorem splitCRLF_append_cr {l : List Nat} (h : ∀ b ∈ l, b ≠ 13) :
    splitCRLF (l ++ [13]) = none := by
  induction l with
  | nil => rfl
  | cons a t ih =>
    have hne : t ++ [13] ≠ [] := by simp
    obtain ⟨b2, r, ht⟩ := List.exists_cons_of_ne_nil hne
    have : (a :: t) ++ [13] = a :: b2 :: r := by rw [List.cons_append, ht]
    rw [this, splitCRLF_cons₂, if_neg (by
      intro hc
      exact h a (List.mem_cons_self a _) hc.1)]
    rw [← ht, ih (fun b hb => h b (List.mem_cons_of_mem a hb))]
    rfl

theorem splitCRLF_append_crlf {l : List Nat} (t : List Nat)
    (h : ∀ b ∈ l, b ≠ 13) : splitCRLF (l ++ 13 :: 10 :: t) = some (l, t) := by
  induction l with
  | nil => rfl
  | cons a u ih =>
    have hne : u ++ 13 :: 10 :: t ≠ [] := by simp
    obtain ⟨b2, r, hu⟩ := List.exists_cons_of_ne_nil hne
    have hshape : (a :: u) ++ 13 :: 10 :: t = a :: b2 :: r := by
      rw [List.cons_append, hu]
    rw [hshape, splitCRLF_cons₂, if_neg (by
      intro hc
      exact h a (List.mem_cons_self a _) hc.1)]
    rw [← hu, ih (fun b hb => h b (List.mem_cons_of_mem a hb))]
    rfl

/-! ## The shape of a written frame -/

theorem writeFrame_length (p : List Nat) :
    (writeFrame p).length = (natToDecBytes p.length).length + 2 + p.length := by
  simp [writeFrame]
  omega

theorem splitCRLF_writeFrame (p : List Nat) :
    splitCRLF (writeFrame p) = some (natToDecBytes p.length, p) := by
  rw [writeFrame]
  exact splitCRLF_append_crlf p (natToDecBytes_not_cr p.length)

/-- **C3.** Every frame the client writes (`sock.sendall(str(body_len) +
'\r\n' + body)`, used for `request`, `plot` and `terminate` messages alike)
is the ASCII decimal byte count of the payload, then CR LF, then exactly the
payload bytes and nothing after them: the header bytes are decimal digits,
parsing the part before the first CR LF with Python `int` gives back the
payload's byte length, and everything after the first CR LF is exactly the
payload.  (In Python 2, `len(body)` of the `str` returned by `json.dumps` is
its byte count; `json.dumps` emits ASCII, so byte and character counts
coincide by construction.) -/
theorem writeFrame_wire_format (p : List Nat) :
    writeFrame p = natToDecBytes p.length ++ 13 :: 10 :: p ∧
    (∀ b ∈ natToDecBytes p.length, 48 ≤ b ∧ b ≤ 57) ∧
    pyInt (natToDecBytes p.length) = some (p.length : Int) ∧
    splitCRLF (writeFrame p) = some (natToDecBytes p.length, p) :=
  ⟨rfl, natToDecBytes_digits p.length, pyInt_natToDecBytes p.length,
    splitCRLF_writeFrame p⟩

/-! ## Prefixes of a written frame, as the buffering loop sees them -/

theorem take_writeFrame_header (p : List Nat) (k : Nat)
    (hk : k < (natToDecBytes p.length).length + 2) :
    splitCRLF ((writeFrame p).take k) = none := by
  rw [writeFrame]
  by_cases hD : k ≤ (natToDecBytes p.length).length
  · rw [List.take_append_eq_append_take]
    have h0 : k - (natToDecBytes p.length).length = 0 := by omega
    rw [h0, List.take_zero, List.append_nil]
    exact splitCRLF_eq_none
      (fun b hb => natToDecBytes_not_cr p.length b (List.mem_of_mem_take hb))
  · have hk1 : k = (natToDecBytes p.length).length + 1 := by omega
    rw [List.take_append_eq_append_take, hk1, List.take_of_length_le (by omega)]
    have h1 : (natToDecBytes p.length).length + 1 - (natToDecBytes p.length).length
        = 1 := by omega
    rw [h1]
    have h2 : (13 :: 10 :: p).take 1 = [13] := rfl
    rw [h2]
    exact splitCRLF_append_cr (natToDecBytes_not_cr p.length)

theorem take_writeFrame_payload (p : List Nat) (k : Nat)
    (hk : (natToDecBytes p.length).length + 2 ≤ k) :
    splitCRLF ((writeFrame p).take k) =
      some (natToDecBytes p.length,
        p.take (k - (natToDecBytes p.length).length - 2)) := by
  rw [writeFrame, List.take_append_eq_append_take, List.take_of_length_le (by omega)]
  obtain ⟨m, hm⟩ : ∃ m, k - (natToDecBytes p.length).length = m + 2 :=
    ⟨k - (natToDecBytes p.length).length - 2, by omega⟩
  rw [hm]
  have h2 : (13 :: 10 :: p).take (m + 2) = 13 :: 10 :: p.take m := rfl
  rw [h2, splitCRLF_append_crlf _ (natToDecBytes_not_cr p.length)]
  have h3 : m = k - (natToDecBytes p.length).length - 2 := by omega
  rw [h3]
  have h4 : k - (natToDecBytes p.length).length - 2 + 2 - 2
      = k - (natToDecBytes p.length).length - 2 := by omega
  rw [h4]

/-! ## Single steps of the buffering loop -/

theorem readLoop_exit {chunks : List (List Nat)} {response : List Nat} {size : Int}
    (h : ¬ (response.length : Int) < size) :
    readLoop chunks response size = finishRead response := by
  cases chunks <;> simp [readLoop, h]

theorem readLoop_cons_step {c : List Nat} {rest : List (List Nat)}
    {response : List Nat} {size : Int} {hdr tail : List Nat} {n : Int}
    (hin : (response.length : Int) < size)
    (hsplit : splitCRLF (response ++ c) = some (hdr, tail))
    (hint : pyInt hdr = some n) :
    readLoop (c :: rest) response size =
      readLoop rest (response ++ c) ((hdr.length : Int) + 2 + n) := by
  simp only [readLoop, if_pos hin, hsplit, hint]

theorem readLoop_cons_nohdr {c : List Nat} {rest : List (List Nat)}
    {response : List Nat} {size : Int}
    (hin : (response.length : Int) < size)
    (hsplit : splitCRLF (response ++ c) = none) :
    readLoop (c :: rest) response size =
      readLoop rest (response ++ c) (((response ++ c).length : Int) + 1) := by
  simp only [readLoop, if_pos hin, hsplit]

theorem readLoop_cons_badhdr {c : List Nat} {rest : List (List Nat)}
    {response : List Nat} {size : Int} {hdr tail : List Nat}
    (hin : (response.length : Int) < size)
    (hsplit : splitCRLF (response ++ c) = some (hdr, tail))
    (hbad : pyInt hdr = none) :
    readLoop (c :: rest) response size = .valueError := by
  simp only [readLoop, if_pos hin, hsplit, hbad]

/-! ## The framing round trip -/

/-- Once the header has been parsed, the loop keeps buffering until exactly
the whole frame has arrived, then returns everything after the delimiter. -/
theorem readLoop_payload (p : List Nat) (chunks : List (List Nat)) :
    ∀ (k : Nat), (natToDecBytes p.length).length + 2 ≤ k →
      k ≤ (writeFrame p).length →
      chunks.flatten = (writeFrame p).drop k →
      readLoop chunks ((writeFrame p).take k)
        (((natToDecBytes p.length).length : Int) + 2 + (p.length : Int))
        = .ok p := by
  induction chunks with
  | nil =>
    intro k hk1 hk2 hflat
    have hlen : (writeFrame p).length ≤ k := by
      rw [List.flatten_nil, eq_comm, List.drop_eq_nil_iff] at hflat
      exact hflat
    have hkeq : k = (writeFrame p).length := le_antisymm hk2 hlen
    subst hkeq
    rw [readLoop_exit (by
      rw [List.take_length, writeFrame_length]
      push_cast
      omega)]
    rw [List.take_length, finishRead, splitCRLF_writeFrame]
  | cons c rest ih =>
    intro k hk1 hk2 hflat
    rcases eq_or_lt_of_le hk2 with heq | hlt
    · subst heq
      rw [readLoop_exit (by
        rw [List.take_length, writeFrame_length]
        push_cast
        omega)]
      rw [List.take_length, finishRead, splitCRLF_writeFrame]
    · have hcond : ((writeFrame p).take k).length = k := by
        rw [List.length_take]
        omega
      have hflat' : c ++ rest.flatten = (writeFrame p).drop k := by
        simpa using hflat
      have hc : c = ((writeFrame p).drop k).take c.length := by
        rw [← hflat', List.take_left]
      have hresp : (writeFrame p).take k ++ c = (writeFrame p).take (k + c.length) := by
        rw [List.take_add, ← hc]
      have hclen : k + c.length ≤ (writeFrame p).length := by
        have := congrArg List.length hflat'
        simp [List.length_drop] at this
        omega
      have hsplit : splitCRLF ((writeFrame p).take k ++ c) =
          some (natToDecBytes p.length,
            p.take (k + c.length - (natToDecBytes p.length).length - 2)) := by
        rw [hresp]
        exact take_writeFrame_payload p (k + c.length) (by omega)
      rw [readLoop_cons_step (by rw [hcond]; rw [writeFrame_length] at hlt; omega)
        hsplit (pyInt_natToDecBytes p.length)]
      rw [hresp]
      exact ih (k + c.length) (by omega) hclen (by
        rw [← List.drop_drop, ← hflat', List.drop_left])

/-- While the CR LF delimiter has not yet arrived, the loop keeps reading
(`response_size = len(response) + 1`) until the header is complete, then
hands over to the payload phase. -/
theorem readLoop_header (p : List Nat) (chunks : List (List Nat)) :
    ∀ (k : Nat), k < (natToDecBytes p.length).length + 2 →
      chunks.flatten = (writeFrame p).drop k →
      (∀ c ∈ chunks, c ≠ []) →
      readLoop chunks ((writeFrame p).take k) ((k : Int) + 1) = .ok p := by
  induction chunks with
  | nil =>
    intro k hk hflat _
    exfalso
    rw [List.flatten_nil, eq_comm, List.drop_eq_nil_iff, writeFrame_length] at hflat
    omega
  | cons c rest ih =>
    intro k hk hflat hne
    have hkF : k ≤ (writeFrame p).length := by
      rw [writeFrame_length]
      omega
    have hcond : ((writeFrame p).take k).length = k := by
      rw [List.length_take]
      omega
    have hflat' : c ++ rest.flatten = (writeFrame p).drop k := by
      simpa using hflat
    have hc : c = ((writeFrame p).drop k).take c.length := by
      rw [← hflat', List.take_left]
    have hresp : (writeFrame p).take k ++ c = (writeFrame p).take (k + c.length) := by
      rw [List.take_add, ← hc]
    have hclen : k + c.length ≤ (writeFrame p).length := by
      have := congrArg List.length hflat'
      simp [List.length_drop] at this
      omega
    have hrest : rest.flatten = (writeFrame p).drop (k + c.length) := by
      rw [← List.drop_drop, ← hflat', List.drop_left]
    have hcpos : 0 < c.length :=
      List.length_pos.mpr (hne c (List.mem_cons_self c rest))
    have hin : (((writeFrame p).take k).length : Int) < (k : Int) + 1 := by
      rw [hcond]
      omega
    by_cases hphase : k + c.length < (natToDecBytes p.length).length + 2
    · rw [readLoop_cons_nohdr hin (by rw [hresp]; exact take_writeFrame_header p _ hphase)]
      rw [hresp]
      have hlen' : ((writeFrame p).take (k + c.length)).length = k + c.length := by
        rw [List.length_take]
        omega
      rw [hlen']
      push_cast
      exact_mod_cast ih (k + c.length) hphase hrest
        (fun d hd => hne d (List.mem_cons_of_mem c hd))
    · have hsplit : splitCRLF ((writeFrame p).take k ++ c) =
          some (natToDecBytes p.length,
            p.take (k + c.length - (natToDecBytes p.length).length - 2)) := by
        rw [hresp]
        exact take_writeFrame_payload p (k + c.length) (by omega)
      rw [readLoop_cons_step hin hsplit (pyInt_natToDecBytes p.length)]
      rw [hresp]
      exact readLoop_payload p rest (k + c.length) (by omega) hclen hrest

/-- **C1.** Framing round trip: writing any byte payload `p` as a frame and
reading one frame back from the resulting byte stream yields exactly `p`,
for every way of delivering the stream as a sequence of (nonempty) partial
reads — including deliveries that split the decimal length header itself
across reads. -/
theorem readFrame_writeFrame (p : List Nat) (chunks : List (List Nat))
    (hjoin : chunks.flatten = writeFrame p) (hne : ∀ c ∈ chunks, c ≠ []) :
    readFrame chunks = .ok p := by
  have h := readLoop_header p chunks 0 (by omega) (by simpa using hjoin) hne
  rw [List.take_zero] at h
  norm_num at h
  exact h

/-- Witness for C1 at `p = [65]` with the frame `"1\r\nA"` delivered as the
two reads `"1\r"` and `"\nA"` (the header split across reads). -/
theorem readFrame_writeFrame_witness :
    readFrame [[49, 13], [10, 65]] = .ok [65] :=
  readFrame_writeFrame [65] [[49, 13], [10, 65]] (by decide) (by decide)

/-! ## What the reading loop actually consumes (claims C4 and C5) -/

/-- **C4 (amended).** The loop stops issuing reads as soon as at least
`len(header) + 2 + advertised` bytes are buffered (further chunks are never
consumed), but the payload it returns is `response.split('\r\n', 1)[1]` —
every buffered byte after the first CR LF, which can be more than the
advertised length when a read delivered extra bytes. -/
theorem readFrame_takes_all_buffered (hdr tail : List Nat) (n : Nat)
    (chunks : List (List Nat)) (h13 : ∀ b ∈ hdr, b ≠ 13)
    (hp : pyInt hdr = some (n : Int)) (hn : n ≤ tail.length) :
    readFrame ((hdr ++ 13 :: 10 :: tail) :: chunks) = .ok tail := by
  rw [readFrame]
  have hsplit : splitCRLF ([] ++ (hdr ++ 13 :: 10 :: tail)) = some (hdr, tail) := by
    rw [List.nil_append]
    exact splitCRLF_append_crlf tail h13
  rw [readLoop_cons_step (by norm_num) hsplit hp, List.nil_append]
  rw [readLoop_exit (by
    simp only [List.length_append, List.length_cons]
    push_cast
    omega)]
  rw [finishRead, splitCRLF_append_crlf tail h13]

/-- Witness for the amended C4: header `"5"`, but ten bytes `"helloXTRA"`
buffered after the delimiter — the whole ten bytes come back as the payload
and the trailing chunk list is never consumed. -/
theorem readFrame_takes_all_buffered_witness :
    readFrame [[53, 13, 10, 104, 101, 108, 108, 111, 88, 84, 82, 65]]
      = .ok [104, 101, 108, 108, 111, 88, 84, 82, 65] :=
  readFrame_takes_all_buffered [53] [104, 101, 108, 108, 111, 88, 84, 82, 65]
    5 [] (by decide) (by decide) (by decide)

/-- Counterexample to C4 as stated: the frame advertises 5 payload bytes
(`"5\r\nhello"`), 9 bytes are buffered after the delimiter, and the reader
returns all 9 — bytes beyond the advertised length are treated as part of
the current frame. -/
theorem readFrame_overread_cex :
    readFrame [[53, 13, 10, 104, 101, 108, 108, 111, 88, 84, 82, 65]]
        = .ok [104, 101, 108, 108, 111, 88, 84, 82, 65] ∧
      ([104, 101, 108, 108, 111, 88, 84, 82, 65] : List Nat)
        ≠ [104, 101, 108, 108, 111] := by
  constructor
  · decide
  · decide

/-- **C5 (amended).** There is no `ProtocolError` in the program.  A
non-numeric length header makes `int()` raise an uncaught `ValueError`; a
negative decimal header makes `response_size` smaller than the buffer, so
the loop exits at once and the "frame" read *succeeds*, returning whatever
bytes happen to sit after the delimiter. -/
theorem readFrame_bad_header (hdr tail : List Nat) (chunks : List (List Nat))
    (h13 : ∀ b ∈ hdr, b ≠ 13) :
    (pyInt hdr = none →
      readFrame ((hdr ++ 13 :: 10 :: tail) :: chunks) = .valueError) ∧
    (∀ z : Int, pyInt hdr = some z → z < 0 →
      readFrame ((hdr ++ 13 :: 10 :: tail) :: chunks) = .ok tail) := by
  constructor
  · intro hbad
    rw [readFrame]
    exact readLoop_cons_badhdr (by norm_num)
      (by rw [List.nil_append]; exact splitCRLF_append_crlf tail h13) hbad
  · intro z hz hneg
    rw [readFrame]
    rw [readLoop_cons_step (by norm_num)
      (by rw [List.nil_append]; exact splitCRLF_append_crlf tail h13) hz]
    rw [List.nil_append]
    rw [readLoop_exit (by
      simp only [List.length_append, List.length_cons]
      push_cast
      omega)]
    rw [finishRead, splitCRLF_append_crlf tail h13]

/-- Witness for the amended C5: the negative header `"-5"` is accepted and
the read returns the two buffered bytes after the delimiter. -/
theorem readFrame_bad_header_witness :
    readFrame [[45, 53, 13, 10, 97, 98]] = .ok [97, 98] :=
  (readFrame_bad_header [45, 53] [97, 98] [] (by decide)).2 (-5) (by decide)
    (by decide)

/-- Counterexample to C5 as stated: on the stream `"-5\r\nabc"` (negative
header) the read *succeeds* instead of failing with a `ProtocolError`, and
on `"a\r\n"` (non-numeric header) it raises a plain `ValueError` — an
unclassified exception, not a `ProtocolError`. -/
theorem readFrame_bad_header_cex :
    readFrame [[45, 53, 13, 10, 97, 98, 99]] = .ok [97, 98, 99] ∧
      readFrame [[97, 13, 10]] = .valueError := by
  constructor
  · decide
  · decide

/-! ## Request generation (`generate_random_request`, `client.py` 37–78)

Randomness (`random.choice`, `random.uniform`) is passed in as arguments,
and the external Paillier capability `public_key.encrypt` — out of scope,
per the spec — is passed in as a function `enc` giving the serialized
`(str(ciphertext()), exponent)` pair.  Python `str` on a float is passed in
as `pyStr`.  Wall-clock timing instrumentation (`processing_times`) is not
modelled. -/

/-- The closed operation set of `client.py` line 28. -/
def operations : List String := ["x*", "+", "+*"]

/-- A JSON operand value as placed in the request dict: either the
`(ciphertext-string, exponent)` 2-tuple of an encrypted operand, or a
plaintext decimal string. -/
inductive WireOperand where
  | encPair (ciphertext : String) (exponent : Int)
  | plain (s : String)
  deriving DecidableEq, Repr

/-- The `{'g': ..., 'n': ...}` public-key dict embedded in each request. -/
structure PaillierPub where
  g : Nat
  n : Nat
  deriving DecidableEq, Repr

/-- The request dict built by `generate_random_request`. -/
structure RequestMsg where
  type : String
  mode : String
  public_key : PaillierPub
  operation : String
  operand_1 : WireOperand
  operand_2 : WireOperand
  deriving DecidableEq, Repr

/-- `get_expected_result` (`client.py` 30–35). -/
def get_expected_result (operand_1 operand_2 : ℚ) (operation : String) : ℚ :=
  if operation = "x*" then operand_1 * operand_2 else operand_1 + operand_2

/-- `generate_random_request` (`client.py` 37–78), with the random draws
(`operation`, `operand_1`, `operand_2`) and the external capabilities
(`pyStr`, `enc`, the key pair) as inputs.  Returns
`(operand_1, operand_2, expected_result, message)` as the source does. -/
def generate_random_request (pyStr : ℚ → String) (enc : ℚ → String × Int)
    (pk : PaillierPub) (mode : String) (operation : String)
    (operand_1 operand_2 : ℚ) : ℚ × ℚ × ℚ × RequestMsg :=
  let expected_result := get_expected_result operand_1 operand_2 operation
  let msg : RequestMsg :=
    if mode = "encrypted" then
      { type := "request", mode := mode, public_key := pk, operation := operation
        operand_1 := WireOperand.encPair (enc operand_1).1 (enc operand_1).2
        operand_2 :=
          if operation = "+" then
            WireOperand.encPair (enc operand_2).1 (enc operand_2).2
          else WireOperand.plain (pyStr operand_2) }
    else
      { type := "request", mode := mode, public_key := pk, operation := operation
        operand_1 := WireOperand.plain (pyStr operand_1)
        operand_2 := WireOperand.plain (pyStr operand_2) }
  (operand_1, operand_2, expected_result, msg)

/-- **C2.** In encrypted mode `operand_1` is always the encrypted
`(ciphertext, exponent)` 2-tuple; `operand_2` is such a 2-tuple exactly
when the chosen operation is encrypted-add `"+"` (so for `"x*"` and `"+*"`
it is the plaintext decimal string); in unencrypted mode both operands are
plaintext decimal strings. -/
theorem generate_random_request_operand_shapes (pyStr : ℚ → String)
    (enc : ℚ → String × Int) (pk : PaillierPub) (operation : String)
    (o1 o2 : ℚ) :
    ((generate_random_request pyStr enc pk "encrypted" operation o1 o2).2.2.2.operand_1
        = WireOperand.encPair (enc o1).1 (enc o1).2) ∧
    (operation = "+" →
      (generate_random_request pyStr enc pk "encrypted" operation o1 o2).2.2.2.operand_2
        = WireOperand.encPair (enc o2).1 (enc o2).2) ∧
    (operation ≠ "+" →
      (generate_random_request pyStr enc pk "encrypted" operation o1 o2).2.2.2.operand_2
        = WireOperand.plain (pyStr o2)) ∧
    ((generate_random_request pyStr enc pk "unencrypted" operation o1 o2).2.2.2.operand_1
        = WireOperand.plain (pyStr o1)) ∧
    ((generate_random_request pyStr enc pk "unencrypted" operation o1 o2).2.2.2.operand_2
        = WireOperand.plain (pyStr o2)) := by
  refine ⟨?_, ?_, ?_, ?_, ?_⟩ <;>
    simp only [generate_random_request]
  · rfl
  · intro h
    simp [h]
  · intro h
    simp [h]
  · rfl
  · rfl

/-! ## The correctness tally (`client.py` 18, 212–224)

`correctness = defaultdict()` has no default factory, so it behaves as a
plain dict: the `'correct'` / `'wrong'` entries are absent until first
created.  We model each entry as an `Option (List Nat)`. -/

/-- The fresh six-element counter vector `[0, 0, 0, 0, 0, 0]` of
lines 215 and 222. -/
def zeros6 : List Nat := [0, 0, 0, 0, 0, 0]

/-- Python `lst[i] += 1` (for the in-range indices the program uses). -/
def bumpAt (l : List Nat) (i : Nat) : List Nat := l.set i (l.getD i 0 + 1)

/-- The global `correctness` dict. -/
structure Correctness where
  correct : Option (List Nat)
  wrong : Option (List Nat)
  deriving DecidableEq, Repr

/-- Lines 212–224 of `client.py`: compare the decoded numeric `result`
against `expected_result` with `!=`, lazily create the six-element counter
vector for the chosen outcome, and increment its slot at
`operations.index(response['operation'])` — the operation string echoed by
the server, not the one the client issued.  (`List.indexOf` agrees with
Python's `list.index` whenever `respOp ∈ operations`, which the theorems
assume; for an absent operation Python would raise `ValueError`.) -/
def tallyUpdate (c : Correctness) (result expected : ℚ) (respOp : String) :
    Correctness :=
  if result ≠ expected then
    { c with wrong := some (bumpAt (c.wrong.getD zeros6) (operations.indexOf respOp)) }
  else
    { c with correct := some (bumpAt (c.correct.getD zeros6) (operations.indexOf respOp)) }

/-! ## The benchmark loop (`client.py` 160–237) -/

/-- The three supported operations `"x*"`, `"+"`, `"+*"` as an
enumeration. -/
inductive PheOp where
  | scalarMul
  | encAdd
  | encAddPlain
  deriving DecidableEq, Repr

/-- The operation's label in the `operations` list. -/
def PheOp.label : PheOp → String
  | .scalarMul => "x*"
  | .encAdd => "+"
  | .encAddPlain => "+*"

/-- `operations.index` of an operation's label. -/
def opIdx (op : PheOp) : Nat := operations.indexOf op.label

/-- `errno.EAGAIN` (Linux). -/
def EAGAIN : Nat := 11

/-- `errno.EWOULDBLOCK` (on Linux the same number as `EAGAIN`). -/
def EWOULDBLOCK : Nat := 11

/-- One iteration of the benchmark loop body (lines 164–237), observed at
its exception boundary.  Every iteration first generates and sends a
request for operation `issued`; then either a complete request/response
round happens (`round`, carrying the operation the server echoed — the
server, whose code is not in this repository, echoes the request's
operation per the spec — and the decoded and expected numeric results), or
the read raises a `socket.error` with number `errno` (`sockErr`). -/
inductive RoundEvent where
  | round (issued resp : PheOp) (result expected : ℚ)
  | sockErr (issued : PheOp) (errno : Nat)
  deriving DecidableEq

/-- The client's mutable state: the tally dict, and the exit status once
`sys.exit` has been called. -/
structure RunState where
  correctness : Correctness
  exitCode : Option Nat
  deriving DecidableEq, Repr

/-- The state at the start of the run. -/
def initState : RunState := ⟨⟨none, none⟩, none⟩

/-- One iteration of `for i in xrange(nr_ops)`: a completed round updates
the tally (lines 212–224) keyed by the operation the server echoed; a
`socket.error` is handled by lines 226–237 — `EAGAIN`/`EWOULDBLOCK`
prints `'no data available. carry on.'` and `continue`s to the *next*
iteration (abandoning the current round), anything else closes the socket
and calls `sys.exit(1)`. -/
def runStep (st : RunState) (ev : RoundEvent) : RunState :=
  if st.exitCode.isSome then st
  else
    match ev with
    | .round _ resp result expected =>
      { st with correctness := tallyUpdate st.correctness result expected resp.label }
    | .sockErr _ e =>
      if e = EAGAIN ∨ e = EWOULDBLOCK then st
      else { st with exitCode := some 1 }

/-- A whole run over the given iteration events. -/
def runClient (evs : List RoundEvent) : RunState := evs.foldl runStep initState

/-- The operation whose request an iteration issued. -/
def eventIssued : RoundEvent → PheOp
  | .round i _ _ _ => i
  | .sockErr i _ => i

/-- How many requests the run issued for operation `op`. -/
def issuedCount (evs : List RoundEvent) (op : PheOp) : Nat :=
  evs.countP (fun ev => decide (eventIssued ev = op))

/-- `correct` plus `wrong` at `op`'s index. -/
def tallyAt (c : Correctness) (op : PheOp) : Nat :=
  (c.correct.getD zeros6).getD (opIdx op) 0 + (c.wrong.getD zeros6).getD (opIdx op) 0

/-! ## Lemmas about the tally -/

theorem bumpAt_length (l : List Nat) (i : Nat) : (bumpAt l i).length = l.length := by
  simp [bumpAt]

theorem bumpAt_getD_ne (l : List Nat) {i j : Nat} (h : j ≠ i) :
    (bumpAt l i).getD j 0 = l.getD j 0 := by
  rw [bumpAt, List.getD_eq_getElem?_getD, List.getElem?_set_ne (Ne.symm h),
    List.getD_eq_getElem?_getD]

theorem bumpAt_getD_self (l : List Nat) {i : Nat} (h : i < l.length) :
    (bumpAt l i).getD i 0 = l.getD i 0 + 1 := by
  rw [bumpAt, List.getD_eq_getElem?_getD, List.getElem?_set_self h,
    Option.getD_some]

theorem opIdx_lt3 (op : PheOp) : opIdx op < 3 := by
  cases op <;> decide

theorem opIdx_inj {a b : PheOp} (h : opIdx a = opIdx b) : a = b := by
  cases a <;> cases b <;> first | rfl | (exfalso; revert h; decide)

theorem label_mem_operations (op : PheOp) : op.label ∈ operations := by
  cases op <;> decide

/-- The shape invariant of a live counter vector: six slots, the upper
three untouched. -/
def VecOk (v : List Nat) : Prop :=
  v.length = 6 ∧ v.getD 3 0 = 0 ∧ v.getD 4 0 = 0 ∧ v.getD 5 0 = 0

/-- Both tally vectors satisfy `VecOk` (reading an absent entry as the
fresh vector it would be created as). -/
def StateOk (st : RunState) : Prop :=
  VecOk (st.correctness.correct.getD zeros6) ∧
  VecOk (st.correctness.wrong.getD zeros6)

theorem stateOk_init : StateOk initState :=
  ⟨⟨rfl, rfl, rfl, rfl⟩, ⟨rfl, rfl, rfl, rfl⟩⟩

theorem vecOk_bumpAt {v : List Nat} (h : VecOk v) {i : Nat} (hi : i < 3) :
    VecOk (bumpAt v i) := by
  refine ⟨by rw [bumpAt_length]; exact h.1, ?_, ?_, ?_⟩
  · rw [bumpAt_getD_ne _ (by omega)]
    exact h.2.1
  · rw [bumpAt_getD_ne _ (by omega)]
    exact h.2.2.1
  · rw [bumpAt_getD_ne _ (by omega)]
    exact h.2.2.2

theorem stateOk_tallyUpdate {st : RunState} (h : StateOk st) (r x : ℚ)
    (q : PheOp) :
    StateOk { st with correctness := tallyUpdate st.correctness r x q.label } := by
  rw [tallyUpdate]
  by_cases hr : r ≠ x
  · rw [if_pos hr]
    exact ⟨h.1, by
      simp only [Option.getD_some]
      exact vecOk_bumpAt h.2 (opIdx_lt3 q)⟩
  · rw [if_neg hr]
    exact ⟨by
      simp only [Option.getD_some]
      exact vecOk_bumpAt h.1 (opIdx_lt3 q), h.2⟩

theorem stateOk_step {st : RunState} (h : StateOk st) (ev : RoundEvent) :
    StateOk (runStep st ev) := by
  rw [runStep.eq_def]
  by_cases he : st.exitCode.isSome
  · rw [if_pos he]
    exact h
  · rw [if_neg he]
    cases ev with
    | round i resp r x => exact stateOk_tallyUpdate h r x resp
    | sockErr i e =>
      show StateOk (if e = EAGAIN ∨ e = EWOULDBLOCK then st
        else { st with exitCode := some 1 })
      by_cases hE : e = EAGAIN ∨ e = EWOULDBLOCK
      · rw [if_pos hE]
        exact h
      · rw [if_neg hE]
        exact h

theorem stateOk_run (evs : List RoundEvent) :
    ∀ st : RunState, StateOk st → StateOk (evs.foldl runStep st) := by
  induction evs with
  | nil => intro st h; exact h
  | cons e t ih => intro st h; exact ih _ (stateOk_step h e)

/-- Completing a round for operation `q` adds one to `correct + wrong` at
`q`'s own slot and leaves every other operation's slot sum unchanged. -/
theorem tallyAt_tallyUpdate {st : RunState} (h : StateOk st) (r x : ℚ)
    (q op : PheOp) :
    tallyAt (tallyUpdate st.correctness r x q.label) op
      = tallyAt st.correctness op + (if op = q then 1 else 0) := by
  have hlen1 : (st.correctness.correct.getD zeros6).length = 6 := h.1.1
  have hlen2 : (st.correctness.wrong.getD zeros6).length = 6 := h.2.1
  have hq3 : List.indexOf q.label operations < 3 := opIdx_lt3 q
  have hlt1 : List.indexOf q.label operations
      < (st.correctness.correct.getD zeros6).length := by omega
  have hlt2 : List.indexOf q.label operations
      < (st.correctness.wrong.getD zeros6).length := by omega
  rw [tallyUpdate]
  by_cases hr : r ≠ x
  · rw [if_pos hr]
    simp only [tallyAt, Option.getD_some, opIdx]
    by_cases hop : op = q
    · subst hop
      rw [if_pos rfl, bumpAt_getD_self _ hlt2]
      omega
    · have hne : List.indexOf op.label operations
          ≠ List.indexOf q.label operations := fun hc => hop (opIdx_inj hc)
      rw [if_neg hop, bumpAt_getD_ne _ hne]
      omega
  · rw [if_neg hr]
    simp only [tallyAt, Option.getD_some, opIdx]
    by_cases hop : op = q
    · subst hop
      rw [if_pos rfl, bumpAt_getD_self _ hlt1]
      omega
    · have hne : List.indexOf op.label operations
          ≠ List.indexOf q.label operations := fun hc => hop (opIdx_inj hc)
      rw [if_neg hop, bumpAt_getD_ne _ hne]
      omega

/-- Over any run whose iterations all complete their rounds with the server
echoing the issued operation, the per-operation tally sum tracks the number
of issued requests. -/
theorem tallyAt_run (evs : List RoundEvent) :
    ∀ st : RunState, st.exitCode = none → StateOk st →
      (∀ ev ∈ evs, ∃ q r x, ev = RoundEvent.round q q r x) →
      ∀ op, tallyAt ((evs.foldl runStep st).correctness) op
          = tallyAt st.correctness op + issuedCount evs op := by
  induction evs with
  | nil =>
    intro st _ _ _ op
    simp [issuedCount]
  | cons ev rest ih =>
    intro st hexit hOk hall op
    obtain ⟨q, r, x, rfl⟩ := hall _ (List.mem_cons_self ev rest)
    have hstep : runStep st (RoundEvent.round q q r x)
        = { st with correctness := tallyUpdate st.correctness r x q.label } := by
      rw [runStep.eq_def, hexit]
      rfl
    rw [List.foldl_cons, hstep]
    rw [ih { st with correctness := tallyUpdate st.correctness r x q.label }
      hexit (stateOk_tallyUpdate hOk r x q)
      (fun e he => hall e (List.mem_cons_of_mem _ he)) op]
    rw [tallyAt_tallyUpdate hOk r x q op]
    rw [issuedCount, issuedCount, List.countP_cons]
    simp only [eventIssued, decide_eq_true_eq]
    by_cases hop : op = q
    · subst hop
      rw [if_pos rfl]
      omega
    · rw [if_neg hop, if_neg (fun hc => hop hc.symm)]
      omega

/-! ## The claims about the tally and the loop -/

/-- **C7.** After decoding a response, the client compares the decoded
numeric result against the independently computed expected result with
exact equality (`!=`), and increments exactly one tally counter — the
`correct` vector's slot on equality, the `wrong` vector's slot on
inequality — at the index of the operation string echoed in the server's
response (`tallyUpdate` has no access to the issued operation at all): the
other vector is untouched and every other slot of the updated vector keeps
its value. -/
theorem tallyUpdate_one_increment (c : Correctness) (result expected : ℚ)
    (respOp : String) (hmem : respOp ∈ operations)
    (h1 : (c.correct.getD zeros6).length = 6)
    (h2 : (c.wrong.getD zeros6).length = 6) :
    (result = expected →
      (tallyUpdate c result expected respOp).wrong = c.wrong ∧
      ((tallyUpdate c result expected respOp).correct.getD zeros6).getD
          (operations.indexOf respOp) 0
        = (c.correct.getD zeros6).getD (operations.indexOf respOp) 0 + 1 ∧
      ∀ j, j ≠ operations.indexOf respOp →
        ((tallyUpdate c result expected respOp).correct.getD zeros6).getD j 0
          = (c.correct.getD zeros6).getD j 0) ∧
    (result ≠ expected →
      (tallyUpdate c result expected respOp).correct = c.correct ∧
      ((tallyUpdate c result expected respOp).wrong.getD zeros6).getD
          (operations.indexOf respOp) 0
        = (c.wrong.getD zeros6).getD (operations.indexOf respOp) 0 + 1 ∧
      ∀ j, j ≠ operations.indexOf respOp →
        ((tallyUpdate c result expected respOp).wrong.getD zeros6).getD j 0
          = (c.wrong.getD zeros6).getD j 0) := by
  have hidx : operations.indexOf respOp < 3 :=
    List.indexOf_lt_length.mpr hmem
  constructor
  · intro hr
    rw [tallyUpdate, if_neg (by simp [hr])]
    refine ⟨rfl, ?_, ?_⟩
    · simp only [Option.getD_some]
      exact bumpAt_getD_self _ (by omega)
    · intro j hj
      simp only [Option.getD_some]
      exact bumpAt_getD_ne _ hj
  · intro hr
    rw [tallyUpdate, if_pos hr]
    refine ⟨rfl, ?_, ?_⟩
    · simp only [Option.getD_some]
      exact bumpAt_getD_self _ (by omega)
    · intro j hj
      simp only [Option.getD_some]
      exact bumpAt_getD_ne _ hj

/-- Witness for C7: an equal result/expected pair for the echoed operation
`"+"` creates the `correct` vector and sets its slot 1 to one, leaving
`wrong` absent. -/
theorem tallyUpdate_one_increment_witness :
    (tallyUpdate ⟨none, none⟩ (1 : ℚ) 1 "+").wrong = none ∧
      ((tallyUpdate ⟨none, none⟩ (1 : ℚ) 1 "+").correct.getD zeros6).getD 1 0
        = 1 := by
  have h := (tallyUpdate_one_increment ⟨none, none⟩ 1 1 "+" (by decide)
    rfl rfl).1 rfl
  have hidx : operations.indexOf ("+" : String) = 1 := rfl
  obtain ⟨ha, hb, -⟩ := h
  rw [hidx] at hb
  exact ⟨ha, by rw [hb]; rfl⟩

/-- **C9 (amended).** On a socket error with number `EAGAIN`/`EWOULDBLOCK`
the client does *not* retry the pending read: the `continue` on line 232
abandons the current request/response round (the state is completely
unchanged — nothing is tallied for the already-sent request) and the loop
moves on to the next iteration.  On any other socket error the client
closes the connection and terminates via `sys.exit(1)`, a non-zero exit
status, leaving the tally as it was. -/
theorem sockErr_semantics (st : RunState) (op : PheOp) (e : Nat)
    (hexit : st.exitCode = none) :
    ((e = EAGAIN ∨ e = EWOULDBLOCK) → runStep st (.sockErr op e) = st) ∧
    (¬(e = EAGAIN ∨ e = EWOULDBLOCK) →
      (runStep st (.sockErr op e)).exitCode = some 1 ∧
      (runStep st (.sockErr op e)).correctness = st.correctness) := by
  have hstep : runStep st (.sockErr op e)
      = if e = EAGAIN ∨ e = EWOULDBLOCK then st
        else { st with exitCode := some 1 } := by
    rw [runStep.eq_def, hexit]
    rfl
  constructor
  · intro h
    rw [hstep, if_pos h]
  · intro h
    rw [hstep, if_neg h]
    exact ⟨rfl, rfl⟩

/-- Witness for the amended C9 at the concrete error numbers 11
(`EAGAIN`) and 99. -/
theorem sockErr_semantics_witness :
    runStep initState (.sockErr PheOp.scalarMul 11) = initState ∧
      (runStep initState (.sockErr PheOp.scalarMul 99)).exitCode = some 1 :=
  ⟨(sockErr_semantics initState PheOp.scalarMul 11 rfl).1 (Or.inl rfl),
    ((sockErr_semantics initState PheOp.scalarMul 99 rfl).2 (by decide)).1⟩

/-- Counterexample to C9 as stated: in a run whose single iteration issues
a request and then gets `EAGAIN` (errno 11) from the read, the final state
is exactly the initial state — no tally entry was ever created, so the
pending round was skipped outright rather than completed by a retried
read. -/
theorem sockErr_skips_round_cex :
    runClient [RoundEvent.sockErr PheOp.scalarMul 11] = initState ∧
      initState.correctness.correct = none ∧
      initState.correctness.wrong = none := by
  refine ⟨?_, rfl, rfl⟩
  decide

/-- **C8 (amended).** Tally conservation holds for every run in which each
iteration completes its request/response round and the server echoes the
operation that was issued: for every operation, `correct + wrong` at that
operation's index equals the number of requests issued for it.  (It fails
as soon as a would-block iteration occurs, see the counterexample.) -/
theorem tally_conservation (evs : List RoundEvent)
    (h : ∀ ev ∈ evs, ∃ q r x, ev = RoundEvent.round q q r x) (op : PheOp) :
    tallyAt (runClient evs).correctness op = issuedCount evs op := by
  have hrun := tallyAt_run evs initState rfl stateOk_init h op
  have h0 : tallyAt initState.correctness op = 0 := by
    cases op <;> rfl
  rw [runClient, hrun, h0, Nat.zero_add]

/-- Witness for the amended C8: one completed round for `"+"` whose result
was wrong still counts — `correct + wrong = 1 = requests issued`. -/
theorem tally_conservation_witness :
    tallyAt (runClient [RoundEvent.round PheOp.encAdd PheOp.encAdd 1 2]).correctness
        PheOp.encAdd
      = issuedCount [RoundEvent.round PheOp.encAdd PheOp.encAdd 1 2] PheOp.encAdd :=
  tally_conservation [RoundEvent.round PheOp.encAdd PheOp.encAdd 1 2]
    (by
      intro ev hev
      rw [List.mem_singleton] at hev
      exact ⟨PheOp.encAdd, 1, 2, hev⟩)
    PheOp.encAdd

/-- Counterexample to C8 as stated: a run whose single iteration issues an
`"+"` request and then hits `EAGAIN` on the read issues one request but
tallies nothing — `correct + wrong = 0 ≠ 1 = requests issued`. -/
theorem tally_conservation_cex :
    tallyAt (runClient [RoundEvent.sockErr PheOp.encAdd 11]).correctness
        PheOp.encAdd = 0 ∧
      issuedCount [RoundEvent.sockErr PheOp.encAdd 11] PheOp.encAdd = 1 := by
  constructor
  · decide
  · decide

/-- **C10.** In every reachable state of a run, both tally vectors (read as
the fresh six-slot vector while still absent) have exactly six slots, and
the slots at indices 3, 4 and 5 — beyond the three real operations
`"x*"`, `"+"`, `"+*"` at indices 0, 1, 2 — are never incremented: they
remain zero. -/
theorem tally_upper_slots (evs : List RoundEvent) :
    ((runClient evs).correctness.correct.getD zeros6).length = 6 ∧
    ((runClient evs).correctness.wrong.getD zeros6).length = 6 ∧
    ((runClient evs).correctness.correct.getD zeros6).getD 3 0 = 0 ∧
    ((runClient evs).correctness.correct.getD zeros6).getD 4 0 = 0 ∧
    ((runClient evs).correctness.correct.getD zeros6).getD 5 0 = 0 ∧
    ((runClient evs).correctness.wrong.getD zeros6).getD 3 0 = 0 ∧
    ((runClient evs).correctness.wrong.getD zeros6).getD 4 0 = 0 ∧
    ((runClient evs).correctness.wrong.getD zeros6).getD 5 0 = 0 := by
  have h : StateOk (runClient evs) := stateOk_run evs initState stateOk_init
  obtain ⟨⟨l1, a3, a4, a5⟩, ⟨l2, b3, b4, b5⟩⟩ := h
  exact ⟨l1, l2, a3, a4, a5, b3, b4, b5⟩

end PaillierClient
